import Mathlib

set_option synthInstance.maxSize 512

/-!
Verification of the Bengali literature RAG retrieval core: a shallow
embedding of the text normalizer, content structurer, vector-store
formatting and id assignment, retrieval orchestrator, and conversation
memory, with theorems settling the specified properties.

External collaborators (the `unicodedata.normalize('NFC', ·)` routine, the
embedding model and the ChromaDB nearest-neighbour backend) are modelled as
function parameters; everything else is translated from the repository
sources.
-/

/-! ### Text normalizer (`text_preprocessor.py`) -/

/-- Whitespace in the sense of Python's `\s` / `str.isspace` for `str`. -/
def pyIsSpace (c : Char) : Bool :=
  c = ' ' || c = '\t' || c = '\n' || (c.toNat = 11) || (c.toNat = 12) ||
  c = '\r' || (28 ≤ c.toNat && c.toNat ≤ 31) || (c.toNat = 0x85) ||
  (c.toNat = 0xa0) || (c.toNat = 0x1680) ||
  (0x2000 ≤ c.toNat && c.toNat ≤ 0x200a) || (c.toNat = 0x2028) ||
  (c.toNat = 0x2029) || (c.toNat = 0x202f) || (c.toNat = 0x205f) ||
  (c.toNat = 0x3000)

/-- Scanner for `whitespace_pattern.sub(' ', text)`: `prevSpace` records
whether the previous character belonged to a whitespace run, so that each
maximal run emits exactly one ASCII space. -/
def collapseAux : Bool → List Char → List Char
  | _, [] => []
  | prevSpace, c :: rest =>
    if pyIsSpace c then
      (if prevSpace then [] else [' ']) ++ collapseAux true rest
    else c :: collapseAux false rest

/-- Model of `whitespace_pattern.sub(' ', text)`: every maximal run of
whitespace characters is replaced by a single ASCII space. -/
def collapseWS (l : List Char) : List Char :=
  collapseAux false l

/-- Model of Python's `sep.join(parts)`. -/
def pyJoin (sep : String) : List String → String
  | [] => ""
  | [a] => a
  | a :: rest => a ++ sep ++ pyJoin sep rest

/-- Model of Python's `str.strip()`. -/
def pyStrip (l : List Char) : List Char :=
  (((l.dropWhile pyIsSpace).reverse.dropWhile pyIsSpace).reverse)

/-- Model of `str.replace(old, new)` for a single-character pattern `old`. -/
def replaceChar (old : Char) (new : List Char) : List Char → List Char
  | [] => []
  | c :: rest => (if c = old then new else [c]) ++ replaceChar old new rest

/-- Model of `BengaliTextPreprocessor.normalize_unicode`.  The call to
`unicodedata.normalize('NFC', ·)` is the external parameter `nfc`; the three
table replacements (khanda ta `U+09CE` to `U+09A4 U+09CD`, and the two
identity entries for anusvara and visarga) are applied in source order. -/
def normalize_unicode (nfc : String → String) (text : String) : String :=
  let t := nfc text
  ⟨replaceChar 'ঃ' ['ঃ'] (replaceChar 'ং' ['ং'] (replaceChar 'ৎ' ['ত', '্'] t.data))⟩

/-- Model of `BengaliTextPreprocessor.clean_text`: empty input short-circuits,
otherwise Unicode normalization, whitespace-run collapsing, then stripping. -/
def clean_text (nfc : String → String) (text : String) : String :=
  if text = "" then ""
  else ⟨pyStrip (collapseWS (normalize_unicode nfc text).data)⟩

/-! ### Language detection and query rewrite (`rag_system.py`) -/

/-- Characters matched by the compiled pattern `[ঀ-৿]`. -/
def isBengaliChar (c : Char) : Bool :=
  0x0980 ≤ c.toNat && c.toNat ≤ 0x09FF

/-- Characters matched by the compiled pattern `[a-zA-Z]`. -/
def isEnglishChar (c : Char) : Bool :=
  ('a' ≤ c && c ≤ 'z') || ('A' ≤ c && c ≤ 'Z')

/-- Number of Bengali-block characters in a text (`findall` count). -/
def bengali_char_count (text : String) : Nat :=
  (text.data.filter isBengaliChar).length

/-- Number of Latin letters in a text (`findall` count). -/
def english_char_count (text : String) : Nat :=
  (text.data.filter isEnglishChar).length

/-- Model of `BengaliRAGSystem.detect_language`. -/
def detect_language (text : String) : String :=
  let bengali_chars := bengali_char_count text
  let english_chars := english_char_count text
  if english_chars < bengali_chars then "bn"
  else if 0 < english_chars then "en"
  else "bn"

/-- Word characters for the purpose of the regex `\b` boundary used by the
translation substitutions (ASCII alphanumerics, underscore, and the Bengali
block relevant to this corpus). -/
def isWordChar (c : Char) : Bool :=
  c.isAlphanum || c = '_' || isBengaliChar c

/-- Case-insensitive literal-prefix test (ASCII case folding, which covers
the translation table's keys). -/
def startsWithCI : List Char → List Char → Bool
  | [], _ => true
  | _ :: _, [] => false
  | p :: ps, c :: cs => (p.toLower = c.toLower) && startsWithCI ps cs

/-- Whether a `\b` boundary holds immediately after a candidate match of
length `pat.length` at the head of `s`. -/
def boundaryAfterOK (pat s : List Char) : Bool :=
  match (s.drop pat.length).head? with
  | none => true
  | some c2 => !isWordChar c2

/-- Scanner for `re.sub(r'\b' + pat + r'\b', rep, s, flags=IGNORECASE)` with a
literal alphabetic pattern: leftmost non-overlapping matches, whole-word
boundaries, replacement text not rescanned.  `prevWord` records whether the
previously scanned character was a word character. -/
def subWWAux (pat rep : List Char) : Bool → List Char → List Char
  | _, [] => []
  | prevWord, c :: rest =>
    if h : pat ≠ [] ∧ prevWord = false ∧ startsWithCI pat (c :: rest) = true ∧
        boundaryAfterOK pat (c :: rest) = true then
      rep ++ subWWAux pat rep true (List.drop pat.length (c :: rest))
    else
      c :: subWWAux pat rep (isWordChar c) rest
termination_by _ l => l.length
decreasing_by
  · have hp : 1 ≤ pat.length := by
      cases hpat : pat with
      | nil => exact absurd hpat h.1
      | cons a l => simp
    simp only [List.length_drop, List.length_cons]
    omega
  · simp only [List.length_cons]
    omega

/-- Whole-word case-insensitive substitution over strings. -/
def subWholeWordCI (pat rep s : String) : String :=
  ⟨subWWAux pat.data rep.data false s.data⟩

/-- The fixed English-to-Bengali substitution table, in source order. -/
def translation_map : List (String × String) :=
  [("character", "চরিত্র"), ("story", "গল্প"), ("plot", "কাহিনী"),
   ("author", "লেখক"), ("meaning", "অর্থ"), ("question", "প্রশ্ন"),
   ("answer", "উত্তর"), ("Anupam", "অনুপম"), ("Kalyani", "কল্যাণী"),
   ("uncle", "মামা"), ("marriage", "বিয়ে"), ("wedding", "বিয়ে"),
   ("Rabindranath", "রবীন্দ্রনাথ"), ("Tagore", "ঠাকুর")]

/-- Model of `BengaliRAGSystem.translate_query_if_needed`. -/
def translate_query_if_needed (query : String) (target_language : String) : String :=
  if detect_language query ≠ target_language then
    translation_map.foldl (fun acc p => subWholeWordCI p.1 p.2 acc) query
  else query

/-! ### Query results and the vector store (`vector_store.py`) -/

/-- Scalar metadata values (the stored dictionaries hold strings and
numbers). -/
inductive MetaV where
  | s (v : String)
  | n (v : Nat)
deriving DecidableEq

/-- A formatted similarity-search result. -/
structure QueryResult where
  content : String
  metadata : List (String × MetaV)
  distance : Option ℚ
  id : String
deriving DecidableEq

/-- `MAX_CHUNKS_TO_RETRIEVE` from `config.py`. -/
def MAX_CHUNKS_TO_RETRIEVE : Nat := 5

/-- `SHORT_TERM_MEMORY_SIZE` from `config.py`. -/
def SHORT_TERM_MEMORY_SIZE : Nat := 10

/-- The raw parallel arrays returned by `collection.query` in ChromaDB, each
optional (`None`) at the top level as in the Python client. -/
structure RawQueryResults where
  documents : Option (List (List String))
  metadatas : Option (List (List (List (String × MetaV))))
  distances : Option (List (List ℚ))
  ids : Option (List (List String))

/-- The result-formatting logic of `BengaliVectorStore.similarity_search`
applied to the backend's raw answer: guarded by the truthiness of
`results['documents']` and `results['documents'][0]`, one record per entry of
the first document list, with `distance` taken from `results['distances']`
when that field is truthy and `None` otherwise. -/
def similarity_search (results : RawQueryResults) : List QueryResult :=
  match results.documents with
  | none => []
  | some [] => []
  | some (docs0 :: _) =>
    if docs0.isEmpty then []
    else
      (List.range docs0.length).map (fun i =>
        { content := docs0.getD i ""
          metadata := ((results.metadatas.getD []).getD 0 []).getD i []
          distance :=
            match results.distances with
            | none => none
            | some [] => none
            | some (ds0 :: _) => ds0.get? i
          id := ((results.ids.getD []).getD 0 []).getD i "" })

/-- Model of `BengaliVectorStore.search_by_type`: a similarity search with the
fixed metadata filter `{"type": content_type}`.  The embed-and-query backend
is the external parameter `search`. -/
def search_by_type (search : String → Nat → Option (String × String) → List QueryResult)
    (query : String) (content_type : String) (k : Nat) : List QueryResult :=
  search query k (some ("type", content_type))

/-- Model of `BengaliVectorStore.get_character_info`: a character-filtered
search with `k = 5` concatenated with a story-filtered search with `k = 3`. -/
def get_character_info (search : String → Nat → Option (String × String) → List QueryResult)
    (character_name : String) : List QueryResult :=
  search character_name 5 (some ("type", "character")) ++
    search_by_type search character_name "story" 3

/-! ### Retrieval orchestrator (`rag_system.py`) -/

/-- Model of `BengaliRAGSystem.retrieve_relevant_chunks`.  The vector store's
`similarity_search` (embedding plus ChromaDB) is the external parameter
`search`; the Unicode NFC routine used by `clean_text` is `nfc`.  The Python
expression `chunks[0].get('distance', 0) > 0.8` raises a `TypeError` when the
stored distance is `None`, which the model renders as `Except.error`. -/
def retrieve_relevant_chunks (nfc : String → String)
    (search : String → Nat → List QueryResult) (query : String) (k : Nat) :
    Except String (List QueryResult) :=
  let cleaned_query := clean_text nfc query
  let translated_query := translate_query_if_needed cleaned_query "bn"
  let chunks := search translated_query k
  match chunks with
  | [] => Except.ok (search cleaned_query k)
  | c :: _ =>
    match c.distance with
    | some d =>
      if (0.8 : ℚ) < d then Except.ok (search cleaned_query k)
      else Except.ok chunks
    | none => Except.error "TypeError: unorderable None"

/-! ### Content structurer (`text_preprocessor.py: create_searchable_chunks`) -/

/-- A preprocessed story section (output of `preprocess_json_content`). -/
structure StorySection where
  «section» : Nat
  title : String
  content : String
  sentences : List String
deriving DecidableEq

/-- A preprocessed multiple-choice question. -/
structure MCQItem where
  question_number : Nat
  question : String
  options : List (String × String)
  correct_answer : String
  explanation : String
  source : Option String
deriving DecidableEq

/-- A preprocessed creative question. -/
structure CreativeItem where
  question_number : Nat
  context : String
  questions : List (String × String)
  answers : List (String × String)
deriving DecidableEq

/-- The dictionary produced by `preprocess_json_content`: each of the source
document's optional sections is present (`some`, in insertion order) or
absent (`none`).  Dictionaries are ordered association lists. -/
structure ProcessedData where
  story_text : Option (List StorySection)
  mcq_questions : Option (List (String × List MCQItem))
  creative_questions : Option (List CreativeItem)
  word_meanings : Option (List (String × List (String × String)))
  author_info : Option (List (String × String))
  characters_detailed : Option (List (String × List (String × List (String × String))))
deriving DecidableEq

/-- A searchable chunk: the heterogeneous Python dictionaries are rendered as
one structure whose type-specific payload fields are optional. -/
structure Chunk where
  type : String
  content : String
  metadata : List (String × MetaV)
  title : Option String := none
  «section» : Option Nat := none
  question : Option String := none
  options : Option (List (String × String)) := none
  answer : Option String := none
  explanation : Option String := none
  context : Option String := none
  questions : Option (List (String × String)) := none
  answers : Option (List (String × String)) := none
  word : Option String := none
  meaning : Option String := none
  character_name : Option String := none
  character_info : Option (List (String × String)) := none
deriving DecidableEq

/-- The story chunk built for one story section. -/
def mk_story_chunk (s : StorySection) : Chunk :=
  { type := "story"
    content := s.content
    metadata := [("section_number", MetaV.n s.«section»), ("content_type", MetaV.s "narrative")]
    title := some s.title
    «section» := some s.«section» }

/-- The MCQ chunk built for one question of one category. -/
def mk_mcq_chunk (category : String) (q : MCQItem) : Chunk :=
  { type := "mcq"
    content := "প্রশ্ন: " ++ q.question ++ " উত্তর: " ++ q.explanation
    metadata := [("category", MetaV.s category),
                 ("question_number", MetaV.n q.question_number),
                 ("content_type", MetaV.s "question_answer")]
    question := some q.question
    options := some q.options
    answer := some q.correct_answer
    explanation := some q.explanation }

/-- The creative chunk built for one creative question. -/
def mk_creative_chunk (cq : CreativeItem) : Chunk :=
  { type := "creative"
    content := "প্রসঙ্গ: " ++ cq.context ++ " প্রশ্ন ও উত্তর: " ++
      pyJoin " " (cq.answers.map (fun p => p.2))
    metadata := [("question_number", MetaV.n cq.question_number),
                 ("content_type", MetaV.s "creative_question")]
    context := some cq.context
    questions := some cq.questions
    answers := some cq.answers }

/-- The word-meaning chunk built for one glossary entry of one section. -/
def mk_word_chunk (sec : String) (p : String × String) : Chunk :=
  { type := "word_meaning"
    content := "শব্দ: " ++ p.1 ++ " অর্থ: " ++ p.2
    metadata := [("section", MetaV.s sec), ("content_type", MetaV.s "vocabulary")]
    word := some p.1
    meaning := some p.2 }

/-- The character chunk built for one character profile of one category. -/
def mk_character_chunk (category : String) (p : String × List (String × String)) : Chunk :=
  { type := "character"
    content := pyJoin " "
      (("চরিত্র: " ++ p.1) :: p.2.map (fun kv => kv.1 ++ ": " ++ kv.2))
    metadata := [("category", MetaV.s category),
                 ("content_type", MetaV.s "character_description")]
    character_name := some p.1
    character_info := some p.2 }

/-- Model of `BengaliTextPreprocessor.create_searchable_chunks`: one chunk
per logical unit, category blocks appended in the fixed source order
(story, mcq, creative, word_meaning, character); an absent category
contributes nothing.  `author_info` is never chunked. -/
def create_searchable_chunks (pd : ProcessedData) : List Chunk :=
  (match pd.story_text with
   | none => []
   | some sections => sections.map mk_story_chunk) ++
  (match pd.mcq_questions with
   | none => []
   | some cats => cats.flatMap (fun p => p.2.map (mk_mcq_chunk p.1))) ++
  (match pd.creative_questions with
   | none => []
   | some cqs => cqs.map mk_creative_chunk) ++
  (match pd.word_meanings with
   | none => []
   | some secs => secs.flatMap (fun p => p.2.map (mk_word_chunk p.1))) ++
  (match pd.characters_detailed with
   | none => []
   | some cats => cats.flatMap (fun p => p.2.map (mk_character_chunk p.1)))

/-! ### Id assignment and storage preparation (`vector_store.py`) -/

/-- The document id `f"{chunk['type']}_{i}"` assigned in
`process_and_store_documents`. -/
def mk_doc_id (t : String) (i : Nat) : String :=
  t ++ "_" ++ Nat.repr i

/-- The id sequence assigned by the enumeration loop of
`process_and_store_documents`, starting at index `i`. -/
def assign_ids : Nat → List Chunk → List String
  | _, [] => []
  | i, c :: cs => mk_doc_id c.type i :: assign_ids (i + 1) cs

/-- The stored metadata for one chunk: the chunk's own metadata extended with
`type`, `doc_id`, and the type-specific fields. -/
def store_metadata (c : Chunk) (doc_id : String) : List (String × MetaV) :=
  c.metadata ++ [("type", MetaV.s c.type), ("doc_id", MetaV.s doc_id)] ++
  (if c.type = "story" then
    [("title", MetaV.s (c.title.getD "")), ("section", MetaV.n (c.«section».getD 0))]
   else if c.type = "mcq" then
    [("question", MetaV.s (c.question.getD "")), ("answer", MetaV.s (c.answer.getD ""))]
   else if c.type = "character" then
    [("character_name", MetaV.s (c.character_name.getD ""))]
   else if c.type = "word_meaning" then
    [("word", MetaV.s (c.word.getD "")), ("meaning", MetaV.s (c.meaning.getD ""))]
   else [])

/-- The metadata sequence assembled by the enumeration loop. -/
def assign_metadatas : Nat → List Chunk → List (List (String × MetaV))
  | _, [] => []
  | i, c :: cs => store_metadata c (mk_doc_id c.type i) :: assign_metadatas (i + 1) cs

/-- The text sequence assembled by the enumeration loop. -/
def prepare_texts (chunks : List Chunk) : List String :=
  chunks.map (fun c => c.content)

/-- Per-category logical-unit counts of a processed document. -/
def story_count (pd : ProcessedData) : Nat :=
  (pd.story_text.getD []).length

/-- Total MCQ question count across all categories. -/
def mcq_count (pd : ProcessedData) : Nat :=
  ((pd.mcq_questions.getD []).map (fun p => p.2.length)).sum

/-- Creative-question count. -/
def creative_count (pd : ProcessedData) : Nat :=
  (pd.creative_questions.getD []).length

/-- Glossary-entry count across all sections. -/
def word_meaning_count (pd : ProcessedData) : Nat :=
  ((pd.word_meanings.getD []).map (fun p => p.2.length)).sum

/-- Character-profile count across all categories. -/
def character_count (pd : ProcessedData) : Nat :=
  ((pd.characters_detailed.getD []).map (fun p => p.2.length)).sum

/-- Whether the category that produces chunks of type `t` is present in the
source document. -/
def category_present (pd : ProcessedData) (t : String) : Prop :=
  (t = "story" ∧ pd.story_text.isSome = true) ∨
  (t = "mcq" ∧ pd.mcq_questions.isSome = true) ∨
  (t = "creative" ∧ pd.creative_questions.isSome = true) ∨
  (t = "word_meaning" ∧ pd.word_meanings.isSome = true) ∨
  (t = "character" ∧ pd.characters_detailed.isSome = true)

/-! ### Conversation memory (`memory_manager.py`) -/

/-- One conversation turn as built by `add_conversation`. -/
structure Conversation where
  timestamp : String
  user_query : String
  assistant_response : String
  language : String
  retrieved_chunks : List QueryResult
  session_id : String
deriving DecidableEq

/-- The short-term conversation store: a `deque(maxlen=max_size)` plus the
session identifier. -/
structure ConversationMemory where
  max_size : Nat
  conversations : List Conversation
  session_id : String
deriving DecidableEq

/-- Appending to a Python `deque` with `maxlen`: the new element is added on
the right and elements are discarded from the left while the length exceeds
`maxlen`. -/
def deque_append (maxlen : Nat) (l : List α) (x : α) : List α :=
  let l2 := l ++ [x]
  if maxlen < l2.length then l2.drop (l2.length - maxlen) else l2

/-- Model of `ConversationMemory.add_conversation` (`now` stands for the
external `datetime.now()` reading). -/
def add_conversation (m : ConversationMemory) (now : String)
    (user_query : String) (assistant_response : String)
    (retrieved_chunks : Option (List QueryResult)) (language : String) :
    ConversationMemory :=
  let conversation : Conversation :=
    { timestamp := now
      user_query := user_query
      assistant_response := assistant_response
      language := language
      retrieved_chunks := retrieved_chunks.getD []
      session_id := m.session_id }
  { m with conversations := deque_append m.max_size m.conversations conversation }

/-- Python's `lst[-n:]` for a nonnegative `n`: for `n = 0` the slice is
`lst[0:]`, the whole list; otherwise the last `n` elements. -/
def py_last_slice (l : List α) (n : Nat) : List α :=
  if n = 0 then l else l.drop (l.length - n)

/-- Model of `ConversationMemory.get_recent_conversations`. -/
def get_recent_conversations (m : ConversationMemory) (n : Nat) : List Conversation :=
  if n ≤ m.conversations.length then py_last_slice m.conversations n
  else m.conversations

/-! ### Auxiliary predicates and decimal-representation helpers -/

/-- No two adjacent whitespace characters. -/
def no_doubled_ws (l : List Char) : Prop :=
  List.Chain' (fun a b => ¬(pyIsSpace a = true ∧ pyIsSpace b = true)) l

/-- The head (if any) is not whitespace. -/
def head_not_ws (l : List Char) : Bool :=
  match l with
  | [] => true
  | c :: _ => !pyIsSpace c

/-- Every whitespace character is a plain ASCII space. -/
def spaces_single (l : List Char) : Bool :=
  l.all (fun c => !pyIsSpace c || c = ' ')

/-- The maximal all-digit suffix of a character list. -/
def digit_suffix (l : List Char) : List Char :=
  (l.reverse.takeWhile (fun c => c.isDigit)).reverse

/-- Value of a decimal digit character. -/
def dec_digit_val (c : Char) : Nat := c.toNat - 48

/-- Value of a big-endian decimal digit string. -/
def dec_value (l : List Char) : Nat :=
  l.foldl (fun a c => 10 * a + dec_digit_val c) 0

/-- Turn inputs for the repeated-append scenario: the external timestamp, the
user query, the assistant response, the optional retrieved chunks, and the
language tag, in the order of `add_conversation`'s parameters. -/
def add_all (m : ConversationMemory)
    (ts : List (String × String × String × Option (List QueryResult) × String)) :
    ConversationMemory :=
  ts.foldl (fun acc t => add_conversation acc t.1 t.2.1 t.2.2.1 t.2.2.2.1 t.2.2.2.2) m

/-- The conversation record that `add_conversation` builds from one turn
input under session id `sid`. -/
def mk_turn (sid : String)
    (t : String × String × String × Option (List QueryResult) × String) : Conversation :=
  { timestamp := t.1
    user_query := t.2.1
    assistant_response := t.2.2.1
    language := t.2.2.2.2
    retrieved_chunks := (t.2.2.2.1).getD []
    session_id := sid }

/-! ## Theorems -/

/-! ### Conversation store lemmas -/

theorem deque_append_length_le (maxlen : Nat) (l : List α) (x : α)
    (h : l.length ≤ maxlen) : (deque_append maxlen l x).length ≤ maxlen := by
  simp only [deque_append]
  split
  next hc => simp only [List.length_drop]; omega
  next hc =>
    simp only [List.length_append, List.length_cons, List.length_nil, not_lt] at hc ⊢
    omega

theorem deque_append_as_drop (maxlen : Nat) (l : List α) (x : α) :
    deque_append maxlen l x = (l ++ [x]).drop ((l ++ [x]).length - maxlen) := by
  simp only [deque_append]
  split
  next hc => rfl
  next hc =>
    have h0 : l.length + 1 - maxlen = 0 := by
      simp only [List.length_append, List.length_cons, List.length_nil, not_lt] at hc
      omega
    simp [h0]

theorem foldl_deque_append (maxlen : Nat) :
    ∀ (xs acc : List α), acc.length ≤ maxlen →
      List.foldl (deque_append maxlen) acc xs =
        (acc ++ xs).drop ((acc ++ xs).length - maxlen) := by
  intro xs
  induction xs with
  | nil =>
    intro acc h
    have h0 : acc.length - maxlen = 0 := by omega
    simp [h0]
  | cons x xs ih =>
    intro acc h
    rw [List.foldl_cons, ih _ (deque_append_length_le _ _ _ h), deque_append_as_drop]
    have hk : (acc ++ [x]).length - maxlen ≤ (acc ++ [x]).length := by omega
    rw [← List.drop_append_of_le_length hk, List.drop_drop]
    have hassoc : acc ++ [x] ++ xs = acc ++ x :: xs := by simp
    rw [hassoc]
    congr 1
    simp only [List.length_drop, List.length_append, List.length_cons, List.length_nil]
    omega


theorem add_all_conversations (maxSize : Nat) (sid : String) :
    ∀ (ts : List (String × String × String × Option (List QueryResult) × String))
      (buf : List Conversation),
      (add_all { max_size := maxSize, conversations := buf, session_id := sid } ts).conversations =
        List.foldl (deque_append maxSize) buf (ts.map (mk_turn sid)) := by
  intro ts
  induction ts with
  | nil => intro buf; rfl
  | cons t ts ih =>
    intro buf
    simp only [add_all, List.foldl_cons, List.map_cons]
    exact ih (deque_append maxSize buf (mk_turn sid t))

/-- C8: appending `maxSize + 1` turns to an empty conversation store leaves
exactly `maxSize` stored turns, with the first-appended turn evicted and the
remaining turns kept in append order. -/
theorem claim_C8_fifo_eviction (maxSize : Nat) (sid : String)
    (ts : List (String × String × String × Option (List QueryResult) × String))
    (h : ts.length = maxSize + 1) :
    (add_all { max_size := maxSize, conversations := [], session_id := sid } ts).conversations =
      (ts.map (mk_turn sid)).drop 1 ∧
    (add_all { max_size := maxSize, conversations := [], session_id := sid } ts).conversations.length =
      maxSize := by
  have hfold := add_all_conversations maxSize sid ts []
  have hdrop := foldl_deque_append maxSize (ts.map (mk_turn sid)) [] (by simp)
  simp only [List.nil_append] at hdrop
  have hlen : (ts.map (mk_turn sid)).length = maxSize + 1 := by simp [h]
  constructor
  · rw [hfold, hdrop, hlen]
    congr 1
    omega
  · rw [hfold, hdrop]
    simp only [List.length_drop, hlen]
    omega

/-- Witness for C8 at `maxSize = 2` and three concrete turns. -/
theorem claim_C8_fifo_eviction_witness :
    (add_all { max_size := 2, conversations := [], session_id := "s" }
        [("t1", "q1", "r1", none, "bn"), ("t2", "q2", "r2", none, "bn"),
         ("t3", "q3", "r3", none, "en")]).conversations =
      ([("t1", "q1", "r1", none, "bn"), ("t2", "q2", "r2", none, "bn"),
        ("t3", "q3", "r3", none, "en")].map (mk_turn "s")).drop 1 ∧
    (add_all { max_size := 2, conversations := [], session_id := "s" }
        [("t1", "q1", "r1", none, "bn"), ("t2", "q2", "r2", none, "bn"),
         ("t3", "q3", "r3", none, "en")]).conversations.length = 2 :=
  claim_C8_fifo_eviction 2 "s" _ (by rfl)

/-- C10: with at least one stored turn, requesting the last `0` recent
conversations returns the whole buffer, because `0` passes the
`n <= len(...)` clamp and the Python slice `[-0:]` selects everything. -/
theorem claim_C10_zero_returns_all (m : ConversationMemory)
    (h : m.conversations ≠ []) :
    get_recent_conversations m 0 = m.conversations := by
  simp [get_recent_conversations, py_last_slice]

/-- Witness for C10 on a one-turn store. -/
theorem claim_C10_zero_returns_all_witness :
    get_recent_conversations
      { max_size := 10
        conversations := [{ timestamp := "t", user_query := "q",
                            assistant_response := "r", language := "bn",
                            retrieved_chunks := [], session_id := "s" }]
        session_id := "s" } 0 =
      [{ timestamp := "t", user_query := "q", assistant_response := "r",
         language := "bn", retrieved_chunks := [], session_id := "s" }] :=
  claim_C10_zero_returns_all _ (by simp)

/-! ### Character lookup, result formatting, language detection, fallback -/

/-- C7: character lookup returns the character-filtered search (at most 5
results) followed by the story-filtered search (at most 3 results),
concatenated without deduplication — multiplicities add up. -/
theorem claim_C7_character_union
    (search : String → Nat → Option (String × String) → List QueryResult)
    (character_name : String)
    (hk : ∀ q k f, (search q k f).length ≤ k) :
    get_character_info search character_name =
      search character_name 5 (some ("type", "character")) ++
        search character_name 3 (some ("type", "story")) ∧
    (∀ x : QueryResult,
      (get_character_info search character_name).count x =
        (search character_name 5 (some ("type", "character"))).count x +
          (search character_name 3 (some ("type", "story"))).count x) ∧
    (search character_name 5 (some ("type", "character"))).length ≤ 5 ∧
    (search character_name 3 (some ("type", "story"))).length ≤ 3 := by
  refine ⟨rfl, ?_, hk _ _ _, hk _ _ _⟩
  intro x
  simp [get_character_info, search_by_type, List.count_append]

/-- Witness for C7 on the empty backend. -/
theorem claim_C7_character_union_witness :
    get_character_info (fun _ _ _ => ([] : List QueryResult)) "অনুপম" =
      [] ++ [] ∧
    (∀ x : QueryResult,
      (get_character_info (fun _ _ _ => ([] : List QueryResult)) "অনুপম").count x =
        ([] : List QueryResult).count x + ([] : List QueryResult).count x) ∧
    ([] : List QueryResult).length ≤ 5 ∧
    ([] : List QueryResult).length ≤ 3 :=
  claim_C7_character_union (fun _ _ _ => []) "অনুপম" (fun q k f => by simp)

/-- C6: when the backend reports no distances (a falsy `results['distances']`
field), every formatted result carries `distance = none`, never the number
`0`. -/
theorem claim_C6_absent_distance (results : RawQueryResults)
    (h : results.distances = none ∨ results.distances = some []) :
    ∀ r ∈ similarity_search results, r.distance = none ∧ r.distance ≠ some 0 := by
  intro r hr
  unfold similarity_search at hr
  rcases hdoc : results.documents with _ | docs
  · rw [hdoc] at hr; simp at hr
  · rw [hdoc] at hr
    rcases docs with _ | ⟨docs0, drest⟩
    · simp at hr
    · by_cases hempty : docs0.isEmpty
      · simp [hempty] at hr
      · simp only [hempty, if_neg, Bool.false_eq_true, not_false_iff,
          List.mem_map, List.mem_range] at hr
        obtain ⟨i, _, hi⟩ := hr
        rcases h with h | h <;>
          · subst hi
            simp [h]

/-- Witness for C6 on a backend answer with one document and no distance
array. -/
theorem claim_C6_absent_distance_witness :
    ({ content := "a", metadata := [], distance := none, id := "" } : QueryResult).distance
        = none ∧
    ({ content := "a", metadata := [], distance := none, id := "" } : QueryResult).distance
        ≠ some 0 :=
  claim_C6_absent_distance
    { documents := some [["a"]], metadatas := none, distances := none, ids := none }
    (Or.inl rfl) _ (by decide)

/-- C2 fails on the code: in the text made of one Latin letter and one
Bengali character the two counts are tied, yet `detect_language` returns
English, not Bengali. -/
theorem claim_C2_counterexample :
    bengali_char_count "aক" = english_char_count "aক" ∧
    detect_language "aক" = "en" := by
  constructor <;> decide

/-- C2 amended: Bengali is returned exactly when Bengali characters strictly
outnumber Latin letters or there are no Latin letters at all (which covers
the zero-signal text); English is returned exactly when Latin letters are at
least as many as the Bengali characters and there is at least one Latin
letter — so a nonzero tie yields English, not Bengali. -/
theorem claim_C2_detect_language_characterization (text : String) :
    (detect_language text = "en" ↔
      bengali_char_count text ≤ english_char_count text ∧
        0 < english_char_count text) ∧
    (detect_language text = "bn" ↔
      english_char_count text < bengali_char_count text ∨
        english_char_count text = 0) := by
  have hdl : detect_language text =
      if english_char_count text < bengali_char_count text then "bn"
      else if 0 < english_char_count text then "en" else "bn" := rfl
  rw [hdl]
  split
  next hlt =>
    constructor
    · constructor
      · intro h; exact absurd h (by decide)
      · intro h; omega
    · constructor
      · intro _; exact Or.inl hlt
      · intro _; rfl
  next hge =>
    split
    next hpos =>
      constructor
      · constructor
        · intro _; exact ⟨by omega, hpos⟩
        · intro _; rfl
      · constructor
        · intro h; exact absurd h (by decide)
        · intro h; omega
    next hz =>
      constructor
      · constructor
        · intro h; exact absurd h (by decide)
        · intro h; omega
      · constructor
        · intro _; exact Or.inr (by omega)
        · intro _; rfl

/-- C1: when the primary search on the cleaned-and-translated query returns
no results, or returns a first result whose distance exceeds 0.8, the
orchestrator re-issues the search with the cleaned-but-untranslated query
and returns that second result set; otherwise it returns the primary result
set.  (The primary first result is assumed to carry a numeric distance; a
`None` distance makes the Python comparison raise instead.) -/
theorem claim_C1_fallback (nfc : String → String)
    (search : String → Nat → List QueryResult) (query : String) (k : Nat) :
    (search (translate_query_if_needed (clean_text nfc query) "bn") k = [] →
      retrieve_relevant_chunks nfc search query k =
        Except.ok (search (clean_text nfc query) k)) ∧
    (∀ c rest d,
      search (translate_query_if_needed (clean_text nfc query) "bn") k = c :: rest →
      c.distance = some d →
      retrieve_relevant_chunks nfc search query k =
        Except.ok (if (0.8 : ℚ) < d then search (clean_text nfc query) k
          else search (translate_query_if_needed (clean_text nfc query) "bn") k)) := by
  constructor
  · intro h
    simp only [retrieve_relevant_chunks, h]
  · intro c rest d h hd
    simp only [retrieve_relevant_chunks, h, hd]
    by_cases hcmp : (0.8 : ℚ) < d
    · simp [hcmp]
    · simp [hcmp]

/-- Witness for C1 on the empty backend: the primary search is empty, so the
fallback search result (also empty) is returned. -/
theorem claim_C1_fallback_witness :
    retrieve_relevant_chunks id (fun _ _ => ([] : List QueryResult)) "story" 5 =
      Except.ok [] :=
  (claim_C1_fallback id (fun _ _ => []) "story" 5).1 rfl

/-! ### Structurer: category counts and content (claims C3, C4) -/

theorem mem_story_block {c : Chunk} {o : Option (List StorySection)}
    (h : c ∈ (match o with
      | none => ([] : List Chunk)
      | some sections => sections.map mk_story_chunk)) :
    c.type = "story" ∧ o.isSome = true := by
  cases o with
  | none => simp at h
  | some sections =>
    simp only [List.mem_map] at h
    obtain ⟨s, _, rfl⟩ := h
    exact ⟨rfl, rfl⟩

theorem mem_mcq_block {c : Chunk} {o : Option (List (String × List MCQItem))}
    (h : c ∈ (match o with
      | none => ([] : List Chunk)
      | some cats => cats.flatMap (fun p => p.2.map (mk_mcq_chunk p.1)))) :
    c.type = "mcq" ∧ o.isSome = true := by
  cases o with
  | none => simp at h
  | some cats =>
    simp only [List.mem_flatMap, List.mem_map] at h
    obtain ⟨p, _, q, _, rfl⟩ := h
    exact ⟨rfl, rfl⟩

theorem mem_creative_block {c : Chunk} {o : Option (List CreativeItem)}
    (h : c ∈ (match o with
      | none => ([] : List Chunk)
      | some cqs => cqs.map mk_creative_chunk)) :
    c.type = "creative" ∧ o.isSome = true := by
  cases o with
  | none => simp at h
  | some cqs =>
    simp only [List.mem_map] at h
    obtain ⟨s, _, rfl⟩ := h
    exact ⟨rfl, rfl⟩

theorem mem_word_block {c : Chunk}
    {o : Option (List (String × List (String × String)))}
    (h : c ∈ (match o with
      | none => ([] : List Chunk)
      | some secs => secs.flatMap (fun p => p.2.map (mk_word_chunk p.1)))) :
    c.type = "word_meaning" ∧ o.isSome = true := by
  cases o with
  | none => simp at h
  | some secs =>
    simp only [List.mem_flatMap, List.mem_map] at h
    obtain ⟨p, _, q, _, rfl⟩ := h
    exact ⟨rfl, rfl⟩

theorem mem_character_block {c : Chunk}
    {o : Option (List (String × List (String × List (String × String))))}
    (h : c ∈ (match o with
      | none => ([] : List Chunk)
      | some cats => cats.flatMap (fun p => p.2.map (mk_character_chunk p.1)))) :
    c.type = "character" ∧ o.isSome = true := by
  cases o with
  | none => simp at h
  | some cats =>
    simp only [List.mem_flatMap, List.mem_map] at h
    obtain ⟨p, _, q, _, rfl⟩ := h
    exact ⟨rfl, rfl⟩

theorem story_block_length (o : Option (List StorySection)) :
    (match o with
      | none => ([] : List Chunk)
      | some sections => sections.map mk_story_chunk).length = (o.getD []).length := by
  cases o <;> simp

theorem mcq_block_length (o : Option (List (String × List MCQItem))) :
    (match o with
      | none => ([] : List Chunk)
      | some cats => cats.flatMap (fun p => p.2.map (mk_mcq_chunk p.1))).length =
      ((o.getD []).map (fun p => p.2.length)).sum := by
  cases o with
  | none => simp
  | some cats =>
    simp only [Option.getD_some, List.length_flatMap]
    congr 1
    apply List.map_congr_left
    intro p _
    simp [Function.comp]

theorem creative_block_length (o : Option (List CreativeItem)) :
    (match o with
      | none => ([] : List Chunk)
      | some cqs => cqs.map mk_creative_chunk).length = (o.getD []).length := by
  cases o <;> simp

theorem word_block_length (o : Option (List (String × List (String × String)))) :
    (match o with
      | none => ([] : List Chunk)
      | some secs => secs.flatMap (fun p => p.2.map (mk_word_chunk p.1))).length =
      ((o.getD []).map (fun p => p.2.length)).sum := by
  cases o with
  | none => simp
  | some cats =>
    simp only [Option.getD_some, List.length_flatMap]
    congr 1
    apply List.map_congr_left
    intro p _
    simp [Function.comp]

theorem character_block_length
    (o : Option (List (String × List (String × List (String × String))))) :
    (match o with
      | none => ([] : List Chunk)
      | some cats => cats.flatMap (fun p => p.2.map (mk_character_chunk p.1))).length =
      ((o.getD []).map (fun p => p.2.length)).sum := by
  cases o with
  | none => simp
  | some cats =>
    simp only [Option.getD_some, List.length_flatMap]
    congr 1
    apply List.map_congr_left
    intro p _
    simp [Function.comp]

/-- C4: structuring emits chunks only for present categories, and the chunk
count is the sum of the per-category logical-unit counts (one chunk per story
section, per MCQ question across categories, per creative question, per
glossary word, and per character profile); absent categories contribute
zero. -/
theorem claim_C4_counts (pd : ProcessedData) :
    (create_searchable_chunks pd).length =
      story_count pd + mcq_count pd + creative_count pd +
        word_meaning_count pd + character_count pd ∧
    ∀ c ∈ create_searchable_chunks pd, category_present pd c.type := by
  constructor
  · unfold create_searchable_chunks story_count mcq_count creative_count
      word_meaning_count character_count
    simp only [List.length_append]
    rw [story_block_length, mcq_block_length, creative_block_length,
      word_block_length, character_block_length]
  · intro c hc
    unfold create_searchable_chunks at hc
    rcases List.mem_append.1 hc with h4 | h5
    rcases List.mem_append.1 h4 with h3 | h5'
    rcases List.mem_append.1 h3 with h2 | h4'
    rcases List.mem_append.1 h2 with h1 | h3'
    · exact Or.inl (mem_story_block h1)
    · exact Or.inr (Or.inl (mem_mcq_block h3'))
    · exact Or.inr (Or.inr (Or.inl (mem_creative_block h4')))
    · exact Or.inr (Or.inr (Or.inr (Or.inl (mem_word_block h5'))))
    · exact Or.inr (Or.inr (Or.inr (Or.inr (mem_character_block h5))))

/-- Witness for C4 on a document holding a single story section and nothing
else. -/
theorem claim_C4_counts_witness :
    (create_searchable_chunks
        ⟨some [⟨1, "ভূমিকা", "এটি একটি গল্প।", []⟩], none, none, none, none, none⟩).length = 1 ∧
    category_present
      ⟨some [⟨1, "ভূমিকা", "এটি একটি গল্প।", []⟩], none, none, none, none, none⟩ "story" :=
  ⟨(claim_C4_counts _).1.trans (by decide),
   (claim_C4_counts _).2 (mk_story_chunk ⟨1, "ভূমিকা", "এটি একটি গল্প।", []⟩) (by decide)⟩

theorem str_append_ne_empty_left (a b : String) (h : a ≠ "") : a ++ b ≠ "" := by
  intro hab
  apply h
  have hlen := congrArg String.length hab
  rw [String.length_append] at hlen
  have ha : a.length = 0 := by
    have h0 : String.length "" = 0 := rfl
    omega
  have hd : a.data.length = 0 := by rw [String.length_data]; exact ha
  have hnil : a.data = [] := List.length_eq_zero.mp hd
  cases a with
  | mk d => cases hnil; rfl

theorem pyJoin_cons_ne_empty (sep a : String) (l : List String) (h : a ≠ "") :
    pyJoin sep (a :: l) ≠ "" := by
  cases l with
  | nil => exact h
  | cons b t =>
    show a ++ sep ++ pyJoin sep (b :: t) ≠ ""
    exact str_append_ne_empty_left _ _ (str_append_ne_empty_left _ _ h)

/-- C3 fails on the code: `create_searchable_chunks` drops nothing.  A story
section whose raw text normalizes to the empty string (here, three spaces)
still yields a chunk, and that chunk's content is the empty string. -/
theorem claim_C3_counterexample :
    clean_text id "   " = "" ∧
    create_searchable_chunks
        ⟨some [⟨1, "শিরোনাম", "", []⟩], none, none, none, none, none⟩ =
      [mk_story_chunk ⟨1, "শিরোনাম", "", []⟩] ∧
    (mk_story_chunk ⟨1, "শিরোনাম", "", []⟩).content = "" := by
  refine ⟨by decide, rfl, rfl⟩

/-- C3 amended: structuring drops no logical unit (the chunk count is the
full unit count), and every chunk of a non-story type has non-empty content
thanks to its fixed label prefix; a story section with empty normalized text
is still emitted, as a chunk with empty content. -/
theorem claim_C3_amended (pd : ProcessedData) :
    (create_searchable_chunks pd).length =
      story_count pd + mcq_count pd + creative_count pd +
        word_meaning_count pd + character_count pd ∧
    ∀ c ∈ create_searchable_chunks pd, c.type = "story" ∨ c.content ≠ "" := by
  constructor
  · unfold create_searchable_chunks story_count mcq_count creative_count
      word_meaning_count character_count
    simp only [List.length_append]
    rw [story_block_length, mcq_block_length, creative_block_length,
      word_block_length, character_block_length]
  · intro c hc
    unfold create_searchable_chunks at hc
    rcases List.mem_append.1 hc with h4 | h5
    rcases List.mem_append.1 h4 with h3 | h5'
    rcases List.mem_append.1 h3 with h2 | h4'
    rcases List.mem_append.1 h2 with h1 | h3'
    · exact Or.inl (mem_story_block h1).1
    · refine Or.inr ?_
      cases hmcq : pd.mcq_questions with
      | none => rw [hmcq] at h3'; simp at h3'
      | some cats =>
        rw [hmcq] at h3'
        simp only [List.mem_flatMap, List.mem_map] at h3'
        obtain ⟨p, _, q, _, rfl⟩ := h3'
        exact str_append_ne_empty_left _ _
          (str_append_ne_empty_left _ _ (str_append_ne_empty_left _ _ (by decide)))
    · refine Or.inr ?_
      cases hcq : pd.creative_questions with
      | none => rw [hcq] at h4'; simp at h4'
      | some cqs =>
        rw [hcq] at h4'
        simp only [List.mem_map] at h4'
        obtain ⟨s, _, rfl⟩ := h4'
        exact str_append_ne_empty_left _ _
          (str_append_ne_empty_left _ _ (str_append_ne_empty_left _ _ (by decide)))
    · refine Or.inr ?_
      cases hwm : pd.word_meanings with
      | none => rw [hwm] at h5'; simp at h5'
      | some secs =>
        rw [hwm] at h5'
        simp only [List.mem_flatMap, List.mem_map] at h5'
        obtain ⟨p, _, q, _, rfl⟩ := h5'
        exact str_append_ne_empty_left _ _
          (str_append_ne_empty_left _ _ (str_append_ne_empty_left _ _ (by decide)))
    · refine Or.inr ?_
      cases hch : pd.characters_detailed with
      | none => rw [hch] at h5; simp at h5
      | some cats =>
        rw [hch] at h5
        simp only [List.mem_flatMap, List.mem_map] at h5
        obtain ⟨p, _, q, _, rfl⟩ := h5
        exact pyJoin_cons_ne_empty _ _ _ (str_append_ne_empty_left _ _ (by decide))

/-- Witness for C3's amended statement on a one-entry glossary document. -/
theorem claim_C3_amended_witness :
    (create_searchable_chunks
        ⟨none, none, none, some [("প্রথম", [("অভ্যর্থনা", "সংবর্ধনা")])], none, none⟩).length = 1 ∧
    ((mk_word_chunk "প্রথম" ("অভ্যর্থনা", "সংবর্ধনা")).type = "story" ∨
      (mk_word_chunk "প্রথম" ("অভ্যর্থনা", "সংবর্ধনা")).content ≠ "") :=
  ⟨(claim_C3_amended _).1.trans (by decide),
   (claim_C3_amended ⟨none, none, none, some [("প্রথম", [("অভ্যর্থনা", "সংবর্ধনা")])], none, none⟩).2
     (mk_word_chunk "প্রথম" ("অভ্যর্থনা", "সংবর্ধনা")) (by decide)⟩

/-! ### Decimal representation lemmas (for id uniqueness, claim C5) -/

theorem string_data_eq {a b : String} (h : a.data = b.data) : a = b := by
  cases a
  cases b
  exact congrArg String.mk (by simpa using h)

theorem toDigitsCore_append (b : Nat) :
    ∀ (f n : Nat) (ds : List Char),
      Nat.toDigitsCore b f n ds = Nat.toDigitsCore b f n [] ++ ds := by
  intro f
  induction f with
  | zero => intro n ds; simp [Nat.toDigitsCore]
  | succ f ih =>
    intro n ds
    simp only [Nat.toDigitsCore]
    by_cases h : n / b = 0
    · simp [h]
    · simp only [h, if_neg, not_false_iff, if_false]
      rw [ih (n / b) (Nat.digitChar (n % b) :: ds), ih (n / b) [Nat.digitChar (n % b)]]
      simp

theorem digitChar_isDigit (m : Nat) (h : m < 10) : (Nat.digitChar m).isDigit = true := by
  interval_cases m <;> decide

theorem dec_digit_val_digitChar (m : Nat) (h : m < 10) :
    dec_digit_val (Nat.digitChar m) = m := by
  interval_cases m <;> decide

theorem dec_value_append_singleton (l : List Char) (c : Char) :
    dec_value (l ++ [c]) = 10 * dec_value l + dec_digit_val c := by
  unfold dec_value
  rw [List.foldl_append]
  rfl

theorem toDigitsCore_spec :
    ∀ (f n : Nat), n < f →
      dec_value (Nat.toDigitsCore 10 f n []) = n ∧
      Nat.toDigitsCore 10 f n [] ≠ [] ∧
      ∀ c ∈ Nat.toDigitsCore 10 f n [], c.isDigit = true := by
  intro f
  induction f with
  | zero => intro n h; omega
  | succ f ih =>
    intro n h
    simp only [Nat.toDigitsCore]
    by_cases hdiv : n / 10 = 0
    · have hn : n < 10 := by omega
      have hmod : n % 10 = n := Nat.mod_eq_of_lt hn
      simp only [hdiv, if_pos]
      refine ⟨?_, by simp, ?_⟩
      · show dec_value [Nat.digitChar (n % 10)] = n
        unfold dec_value
        simp only [List.foldl_cons, List.foldl_nil]
        rw [dec_digit_val_digitChar (n % 10) (by omega)]
        omega
      · intro c hc
        simp only [List.mem_singleton] at hc
        subst hc
        exact digitChar_isDigit (n % 10) (by omega)
    · have hn1 : 1 ≤ n := by omega
      have hlt : n / 10 < n := Nat.div_lt_self (by omega) (by norm_num)
      have hf : n / 10 < f := by omega
      obtain ⟨hv, hne, hdig⟩ := ih (n / 10) hf
      simp only [hdiv, if_neg, not_false_iff, if_false]
      rw [toDigitsCore_append 10 f (n / 10) [Nat.digitChar (n % 10)]]
      refine ⟨?_, ?_, ?_⟩
      · rw [dec_value_append_singleton, hv,
          dec_digit_val_digitChar (n % 10) (Nat.mod_lt _ (by norm_num))]
        omega
      · intro hcontra
        rw [List.append_eq_nil] at hcontra
        exact hne hcontra.1
      · intro c hc
        rcases List.mem_append.1 hc with hc | hc
        · exact hdig c hc
        · simp only [List.mem_singleton] at hc
          subst hc
          exact digitChar_isDigit (n % 10) (Nat.mod_lt _ (by norm_num))

theorem repr_spec (n : Nat) :
    dec_value (Nat.repr n).data = n ∧ ∀ c ∈ (Nat.repr n).data, c.isDigit = true := by
  have h := toDigitsCore_spec (n + 1) n (by omega)
  exact ⟨h.1, h.2.2⟩

theorem repr_inj {m n : Nat} (h : Nat.repr m = Nat.repr n) : m = n := by
  have hm := (repr_spec m).1
  have hn := (repr_spec n).1
  rw [← hm, ← hn, h]

theorem takeWhile_append_stop (p : Char → Bool) :
    ∀ (xs : List Char) (y : Char) (ys : List Char),
      (∀ c ∈ xs, p c = true) → p y = false →
      (xs ++ y :: ys).takeWhile p = xs := by
  intro xs
  induction xs with
  | nil =>
    intro y ys _ hy
    simp [List.takeWhile_cons, hy]
  | cons a t ih =>
    intro y ys hall hy
    have ha := hall a (List.mem_cons_self a t)
    simp only [List.cons_append, List.takeWhile_cons, ha, if_pos]
    rw [ih y ys (fun c hc => hall c (List.mem_cons_of_mem a hc)) hy]

theorem digit_suffix_append (a ds : List Char)
    (hds : ∀ c ∈ ds, c.isDigit = true) :
    digit_suffix (a ++ '_' :: ds) = ds := by
  unfold digit_suffix
  rw [List.reverse_append, List.reverse_cons, List.append_assoc,
    List.singleton_append]
  rw [takeWhile_append_stop _ ds.reverse '_' a.reverse
    (fun c hc => hds c (List.mem_reverse.mp hc)) (by decide)]
  exact List.reverse_reverse ds

theorem mk_doc_id_data (t : String) (i : Nat) :
    (mk_doc_id t i).data = t.data ++ '_' :: (Nat.repr i).data := by
  unfold mk_doc_id
  rw [String.data_append, String.data_append]
  simp

theorem mk_doc_id_inj_index {t1 t2 : String} {i j : Nat}
    (h : mk_doc_id t1 i = mk_doc_id t2 j) : i = j := by
  have hd := congrArg String.data h
  rw [mk_doc_id_data, mk_doc_id_data] at hd
  have h1 := digit_suffix_append t1.data (Nat.repr i).data (repr_spec i).2
  have h2 := digit_suffix_append t2.data (Nat.repr j).data (repr_spec j).2
  have hrepr : (Nat.repr i).data = (Nat.repr j).data := by
    rw [← h1, ← h2, hd]
  exact repr_inj (string_data_eq hrepr)

theorem mem_assign_ids {s : String} :
    ∀ (i : Nat) (cs : List Chunk), s ∈ assign_ids i cs →
      ∃ c ∈ cs, ∃ k, i ≤ k ∧ s = mk_doc_id c.type k := by
  intro i cs
  induction cs generalizing i with
  | nil => intro h; simp [assign_ids] at h
  | cons c cs ih =>
    intro h
    simp only [assign_ids, List.mem_cons] at h
    rcases h with h | h
    · exact ⟨c, List.mem_cons_self c cs, i, le_refl i, h⟩
    · obtain ⟨c2, hc2, k, hk, hs⟩ := ih (i + 1) h
      exact ⟨c2, List.mem_cons_of_mem c hc2, k, by omega, hs⟩

theorem assign_ids_nodup : ∀ (i : Nat) (cs : List Chunk), (assign_ids i cs).Nodup := by
  intro i cs
  induction cs generalizing i with
  | nil => simp [assign_ids]
  | cons c cs ih =>
    simp only [assign_ids, List.nodup_cons]
    refine ⟨?_, ih (i + 1)⟩
    intro hmem
    obtain ⟨c2, _, k, hk, hs⟩ := mem_assign_ids (i + 1) cs hmem
    have : i = k := mk_doc_id_inj_index hs
    omega

theorem chunk_type_closed (pd : ProcessedData) :
    ∀ c ∈ create_searchable_chunks pd,
      c.type = "story" ∨ c.type = "mcq" ∨ c.type = "creative" ∨
        c.type = "word_meaning" ∨ c.type = "character" := by
  intro c hc
  unfold create_searchable_chunks at hc
  rcases List.mem_append.1 hc with h4 | h5
  rcases List.mem_append.1 h4 with h3 | h5'
  rcases List.mem_append.1 h3 with h2 | h4'
  rcases List.mem_append.1 h2 with h1 | h3'
  · exact Or.inl (mem_story_block h1).1
  · exact Or.inr (Or.inl (mem_mcq_block h3').1)
  · exact Or.inr (Or.inr (Or.inl (mem_creative_block h4').1))
  · exact Or.inr (Or.inr (Or.inr (Or.inl (mem_word_block h5').1)))
  · exact Or.inr (Or.inr (Or.inr (Or.inr (mem_character_block h5).1)))

/-- C5: the id assignment of one index build is deterministic (in the pure
model, re-running it on the same input is literally the same computation),
every id has the shape `"{type}_{ordinal}"` with the type drawn from the five
chunk types, and the ids of one build are pairwise distinct (the numeric
suffix is the position in the enumeration, and decimal rendering is
injective). -/
theorem claim_C5_id_assignment (pd : ProcessedData) :
    assign_ids 0 (create_searchable_chunks pd) =
      assign_ids 0 (create_searchable_chunks pd) ∧
    (∀ s ∈ assign_ids 0 (create_searchable_chunks pd),
      ∃ t k, (t = "story" ∨ t = "mcq" ∨ t = "creative" ∨ t = "word_meaning" ∨
        t = "character") ∧ s = t ++ "_" ++ Nat.repr k) ∧
    (assign_ids 0 (create_searchable_chunks pd)).Nodup := by
  refine ⟨rfl, ?_, assign_ids_nodup 0 _⟩
  intro s hs
  obtain ⟨c, hc, k, _, hs⟩ := mem_assign_ids 0 _ hs
  exact ⟨c.type, k, chunk_type_closed pd c hc, hs⟩

/-- Witness for C5 on the one-story document: the single assigned id is
`"story_0"`. -/
theorem claim_C5_id_assignment_witness :
    (∃ t k, (t = "story" ∨ t = "mcq" ∨ t = "creative" ∨ t = "word_meaning" ∨
      t = "character") ∧ "story_0" = t ++ "_" ++ Nat.repr k) ∧
    (assign_ids 0 (create_searchable_chunks
      ⟨some [⟨1, "ভূমিকা", "এটি একটি গল্প।", []⟩], none, none, none, none, none⟩)).Nodup :=
  ⟨(claim_C5_id_assignment
      ⟨some [⟨1, "ভূমিকা", "এটি একটি গল্প।", []⟩], none, none, none, none, none⟩).2.1
      "story_0" (by decide),
   (claim_C5_id_assignment
      ⟨some [⟨1, "ভূমিকা", "এটি একটি গল্প।", []⟩], none, none, none, none, none⟩).2.2⟩

/-! ### Whitespace-collapsing lemmas (claim C9) -/

theorem head_not_ws_of_head? {l : List Char} {y : Char}
    (h : head_not_ws l = true) (hy : l.head? = some y) : pyIsSpace y = false := by
  cases l with
  | nil => simp at hy
  | cons c rest =>
    simp only [List.head?_cons, Option.some.injEq] at hy
    subst hy
    simpa [head_not_ws] using h

theorem collapse_spaces_single : ∀ (b : Bool) (l : List Char),
    spaces_single (collapseAux b l) = true := by
  intro b l
  induction l generalizing b with
  | nil => simp [collapseAux, spaces_single]
  | cons c rest ih =>
    simp only [collapseAux]
    by_cases hc : pyIsSpace c
    · simp only [hc, if_pos]
      cases b with
      | true => simpa [spaces_single] using ih true
      | false =>
        have := ih true
        simp only [spaces_single, List.all_append, List.all_cons, List.all_nil] at this ⊢
        simp [this]
    · simp only [hc, if_neg, not_false_iff, if_false]
      have := ih false
      simp only [spaces_single, List.all_cons] at this ⊢
      simp [this, hc]

theorem collapse_head_true : ∀ (l : List Char),
    head_not_ws (collapseAux true l) = true := by
  intro l
  induction l with
  | nil => rfl
  | cons c rest ih =>
    simp only [collapseAux]
    by_cases hc : pyIsSpace c
    · simpa [hc] using ih
    · simp [hc, head_not_ws]

theorem collapse_no_doubled : ∀ (b : Bool) (l : List Char),
    no_doubled_ws (collapseAux b l) := by
  intro b l
  induction l generalizing b with
  | nil => simp [collapseAux, no_doubled_ws]
  | cons c rest ih =>
    simp only [collapseAux]
    by_cases hc : pyIsSpace c
    · simp only [hc, if_pos]
      cases b with
      | true => simpa using ih true
      | false =>
        simp only [Bool.false_eq_true, if_false, List.singleton_append]
        rw [no_doubled_ws, List.chain'_cons']
        refine ⟨?_, ih true⟩
        intro y hy
        have := head_not_ws_of_head? (collapse_head_true rest) hy
        simp [this]
    · rw [if_neg hc]
      rw [no_doubled_ws, List.chain'_cons']
      refine ⟨?_, ih false⟩
      intro y _
      simp [hc]

theorem collapse_id : ∀ (l : List Char),
    spaces_single l = true → no_doubled_ws l →
      collapseAux false l = l ∧
        (head_not_ws l = true → collapseAux true l = l) := by
  intro l
  induction l with
  | nil => intro _ _; exact ⟨rfl, fun _ => rfl⟩
  | cons c rest ih =>
    intro hss hnd
    have hssr : spaces_single rest = true := by
      simp only [spaces_single, List.all_cons] at hss
      exact (Bool.and_eq_true_iff.mp hss).2
    have hndr : no_doubled_ws rest := by
      rw [no_doubled_ws, List.chain'_cons'] at hnd
      exact hnd.2
    obtain ⟨ihf, iht⟩ := ih hssr hndr
    by_cases hc : pyIsSpace c
    · have hcsp : c = ' ' := by
        simp only [spaces_single, List.all_cons] at hss
        have h1 := (Bool.and_eq_true_iff.mp hss).1
        simp [hc] at h1
        exact h1
      have hheadr : head_not_ws rest = true := by
        rw [no_doubled_ws, List.chain'_cons'] at hnd
        cases hr : rest with
        | nil => rfl
        | cons y t =>
          have := hnd.1 y (by simp [hr])
          simp only [head_not_ws, hr]
          by_cases hy : pyIsSpace y
          · exact absurd ⟨hc, hy⟩ this
          · simp [hy]
      constructor
      · subst hcsp
        simp only [collapseAux]
        rw [if_pos hc, iht hheadr]
        rfl
      · intro hhead
        simp only [head_not_ws, hc] at hhead
        simp at hhead
    · constructor
      · simp only [collapseAux]
        rw [if_neg hc, ihf]
      · intro _
        simp only [collapseAux]
        rw [if_neg hc, ihf]

/-! ### Stripping lemmas (claim C9) -/

theorem head_not_ws_dropWhile (l : List Char) :
    head_not_ws (l.dropWhile pyIsSpace) = true := by
  induction l with
  | nil => rfl
  | cons c rest ih =>
    by_cases hc : pyIsSpace c
    · simpa [List.dropWhile_cons, hc] using ih
    · simp [List.dropWhile_cons, hc, head_not_ws]

theorem dropWhile_append_singleton_ends (p : Char → Bool) (c : Char) (hc : p c = false) :
    ∀ (xs : List Char), ∃ ys, (xs ++ [c]).dropWhile p = ys ++ [c] := by
  intro xs
  induction xs with
  | nil =>
    refine ⟨[], ?_⟩
    simp [List.dropWhile_cons, hc]
  | cons a t ih =>
    by_cases ha : p a
    · obtain ⟨ys, hys⟩ := ih
      exact ⟨ys, by simp [List.dropWhile_cons, ha, hys]⟩
    · exact ⟨a :: t, by simp [List.dropWhile_cons, ha]⟩

theorem strip_head (l : List Char) : head_not_ws (pyStrip l) = true := by
  unfold pyStrip
  cases hy : l.dropWhile pyIsSpace with
  | nil => rfl
  | cons c t =>
    have hcns : pyIsSpace c = false := by
      have := head_not_ws_dropWhile l
      rw [hy] at this
      simpa [head_not_ws] using this
    have hrev : (c :: t).reverse = t.reverse ++ [c] := by simp
    rw [hrev]
    obtain ⟨ys, hys⟩ := dropWhile_append_singleton_ends pyIsSpace c hcns t.reverse
    rw [hys]
    simp [head_not_ws, hcns]

theorem strip_last (l : List Char) : head_not_ws (pyStrip l).reverse = true := by
  unfold pyStrip
  rw [List.reverse_reverse]
  exact head_not_ws_dropWhile _

theorem dropWhile_eq_self_of_head (l : List Char) (h : head_not_ws l = true) :
    l.dropWhile pyIsSpace = l := by
  cases l with
  | nil => rfl
  | cons c rest =>
    have : pyIsSpace c = false := by simpa [head_not_ws] using h
    simp [List.dropWhile_cons, this]

theorem strip_id (l : List Char) (h1 : head_not_ws l = true)
    (h2 : head_not_ws l.reverse = true) : pyStrip l = l := by
  unfold pyStrip
  rw [dropWhile_eq_self_of_head l h1, dropWhile_eq_self_of_head l.reverse h2,
    List.reverse_reverse]

theorem mem_pyStrip {c : Char} {l : List Char} (h : c ∈ pyStrip l) : c ∈ l := by
  unfold pyStrip at h
  rw [List.mem_reverse] at h
  have h2 := (List.dropWhile_suffix pyIsSpace).subset h
  rw [List.mem_reverse] at h2
  exact (List.dropWhile_suffix pyIsSpace).subset h2

theorem spaces_single_subset {l1 l2 : List Char} (hsub : ∀ c ∈ l2, c ∈ l1)
    (h : spaces_single l1 = true) : spaces_single l2 = true := by
  rw [spaces_single, List.all_eq_true] at h ⊢
  intro c hc
  exact h c (hsub c hc)

theorem no_doubled_dropWhile {l : List Char} (h : no_doubled_ws l) :
    no_doubled_ws (l.dropWhile pyIsSpace) := by
  induction l with
  | nil => simpa using h
  | cons c rest ih =>
    by_cases hc : pyIsSpace c
    · rw [List.dropWhile_cons]
      simp only [hc, if_pos]
      exact ih (List.Chain'.tail h)
    · rwa [List.dropWhile_cons, if_neg (by simp [hc])]

theorem no_doubled_reverse {l : List Char} (h : no_doubled_ws l) :
    no_doubled_ws l.reverse := by
  rw [no_doubled_ws, List.chain'_reverse]
  refine List.Chain'.imp ?_ h
  intro a b hab
  intro hcontra
  exact hab ⟨hcontra.2, hcontra.1⟩

theorem no_doubled_pyStrip {l : List Char} (h : no_doubled_ws l) :
    no_doubled_ws (pyStrip l) := by
  unfold pyStrip
  exact no_doubled_reverse (no_doubled_dropWhile (no_doubled_reverse (no_doubled_dropWhile h)))

/-! ### Replacement lemmas (claim C9) -/

theorem replaceChar_self (c : Char) (l : List Char) : replaceChar c [c] l = l := by
  induction l with
  | nil => rfl
  | cons a t ih =>
    by_cases ha : a = c
    · subst ha; simp [replaceChar, ih]
    · simp [replaceChar, ha, ih]

theorem mem_replaceChar {c old : Char} {new l : List Char}
    (h : c ∈ replaceChar old new l) : c ∈ new ∨ c ∈ l := by
  induction l with
  | nil => simp [replaceChar] at h
  | cons a t ih =>
    simp only [replaceChar] at h
    rcases List.mem_append.1 h with h1 | h1
    · by_cases ha : a = old
      · simp only [ha, if_pos] at h1
        exact Or.inl h1
      · simp only [ha, if_neg, not_false_iff, if_false, List.mem_singleton] at h1
        exact Or.inr (by simp [h1])
    · rcases ih h1 with h2 | h2
      · exact Or.inl h2
      · exact Or.inr (List.mem_cons_of_mem a h2)

theorem not_mem_replaceChar (old : Char) (new l : List Char) (h : old ∉ new) :
    old ∉ replaceChar old new l := by
  intro hmem
  induction l with
  | nil => simp [replaceChar] at hmem
  | cons a t ih =>
    simp only [replaceChar] at hmem
    rcases List.mem_append.1 hmem with h1 | h1
    · by_cases ha : a = old
      · simp only [ha, if_pos] at h1
        exact h h1
      · simp only [ha, if_neg, not_false_iff, if_false, List.mem_singleton] at h1
        exact ha h1.symm
    · exact ih h1

theorem replaceChar_id_of_not_mem (old : Char) (new : List Char) :
    ∀ (l : List Char), old ∉ l → replaceChar old new l = l := by
  intro l
  induction l with
  | nil => intro _; rfl
  | cons a t ih =>
    intro h
    have ha : a ≠ old := fun hq => h (by simp [hq])
    have ht : old ∉ t := fun hq => h (List.mem_cons_of_mem a hq)
    simp [replaceChar, ha, ih ht]

theorem mem_collapseAux {c : Char} : ∀ (b : Bool) (l : List Char),
    c ∈ collapseAux b l → c = ' ' ∨ c ∈ l := by
  intro b l
  induction l generalizing b with
  | nil => intro h; simp [collapseAux] at h
  | cons a rest ih =>
    intro h
    simp only [collapseAux] at h
    by_cases ha : pyIsSpace a
    · rw [if_pos ha] at h
      rcases List.mem_append.1 h with h1 | h1
      · cases b with
        | true => simp at h1
        | false =>
          simp only [Bool.false_eq_true, if_false, List.mem_singleton] at h1
          exact Or.inl h1
      · rcases ih true h1 with h2 | h2
        · exact Or.inl h2
        · exact Or.inr (List.mem_cons_of_mem a h2)
    · rw [if_neg ha] at h
      rcases List.mem_cons.1 h with h1 | h1
      · exact Or.inr (by simp [h1])
      · rcases ih false h1 with h2 | h2
        · exact Or.inl h2
        · exact Or.inr (List.mem_cons_of_mem a h2)

theorem clean_text_eq_of_ne (nfc : String → String) (s : String) (h : s ≠ "") :
    clean_text nfc s = ⟨pyStrip (collapseWS (normalize_unicode nfc s).data)⟩ := by
  rw [clean_text, if_neg h]

theorem clean_text_empty (nfc : String → String) : clean_text nfc "" = "" := by
  rw [clean_text, if_pos rfl]

/-- C9: `clean_text` (Unicode normalization with NFC as an abstract external
routine, whitespace-run collapsing and stripping) is idempotent, and its
output has no run of two or more consecutive whitespace characters and no
leading or trailing whitespace.  The hypothesis states the Unicode-stability
fact the idempotence rests on: NFC leaves already-cleaned text unchanged. -/
theorem claim_C9_normalize_idempotent (nfc : String → String) (t : String)
    (hfix : ∀ s, nfc (clean_text nfc s) = clean_text nfc s) :
    clean_text nfc (clean_text nfc t) = clean_text nfc t ∧
    no_doubled_ws (clean_text nfc t).data ∧
    head_not_ws (clean_text nfc t).data = true ∧
    head_not_ws (clean_text nfc t).data.reverse = true := by
  by_cases ht : t = ""
  · subst ht
    rw [clean_text_empty]
    refine ⟨clean_text_empty nfc, ?_, rfl, rfl⟩
    simp [no_doubled_ws]
  · have hdata : (clean_text nfc t).data =
        pyStrip (collapseAux false (normalize_unicode nfc t).data) := by
      rw [clean_text_eq_of_ne nfc t ht]
      rfl
    have hnd : no_doubled_ws (clean_text nfc t).data := by
      rw [hdata]
      exact no_doubled_pyStrip (collapse_no_doubled false _)
    have hh : head_not_ws (clean_text nfc t).data = true := by
      rw [hdata]
      exact strip_head _
    have hr : head_not_ws (clean_text nfc t).data.reverse = true := by
      rw [hdata]
      exact strip_last _
    have hss : spaces_single (clean_text nfc t).data = true := by
      rw [hdata]
      exact spaces_single_subset (fun c hc => mem_pyStrip hc)
        (collapse_spaces_single false _)
    have hnok : ('ৎ' : Char) ∉ (clean_text nfc t).data := by
      rw [hdata]
      intro hmem
      have h1 := mem_pyStrip hmem
      rcases mem_collapseAux false _ h1 with h2 | h2
      · exact absurd h2 (by decide)
      · have hu : (normalize_unicode nfc t).data =
            replaceChar 'ৎ' ['ত', '্'] (nfc t).data := by
          simp only [normalize_unicode]
          rw [replaceChar_self, replaceChar_self]
        rw [hu] at h2
        exact not_mem_replaceChar 'ৎ' _ _ (by decide) h2
    refine ⟨?_, hnd, hh, hr⟩
    by_cases hy0 : clean_text nfc t = ""
    · rw [hy0]
      exact clean_text_empty nfc
    · have hstep : normalize_unicode nfc (clean_text nfc t) = clean_text nfc t := by
        simp only [normalize_unicode, hfix t]
        rw [replaceChar_self, replaceChar_self,
          replaceChar_id_of_not_mem _ _ _ hnok]
      rw [clean_text_eq_of_ne nfc (clean_text nfc t) hy0, hstep]
      have hcoll : collapseWS (clean_text nfc t).data = (clean_text nfc t).data :=
        (collapse_id _ hss hnd).1
      rw [hcoll, strip_id _ hh hr]

/-- Witness for C9 with `nfc = id` (which trivially fixes cleaned text) on a
text with doubled internal and surrounding whitespace. -/
theorem claim_C9_normalize_idempotent_witness :
    clean_text id (clean_text id " গল্প  পাঠ ") = clean_text id " গল্প  পাঠ " ∧
    no_doubled_ws (clean_text id " গল্প  পাঠ ").data ∧
    head_not_ws (clean_text id " গল্প  পাঠ ").data = true ∧
    head_not_ws (clean_text id " গল্প  পাঠ ").data.reverse = true :=
  claim_C9_normalize_idempotent id " গল্প  পাঠ " (fun _ => rfl)
